import Mathlib

set_option linter.unusedSectionVars false

/-!
# Verification of the Sopel categories plugin (`bot.py`)

This file gives a shallow embedding of the data model and the operations of the
categories game plugin: the category dictionary (id ↔ keyword maps), the
per-image vote maps (`Categories`), the image dictionary with its live map and
its two backing CSV files, the autoplay scheduler and the scorecard.

Modelling conventions:
* Python `dict`s are insertion-ordered; they are embedded as association lists
  (`List (κ × ν)`) where assignment updates the first matching key in place and
  otherwise appends, lookup returns the first match, and `del` removes the
  first match.
* Python `int` is embedded as `Int`.
* CSV rows are embedded with typed cells (id, url, and (category, count)
  pairs); the textual int/quote formatting of the `csv` module round-trips and
  is elided.  The backing files are embedded as the list of their rows.
* `sorted` / `list.sort` are stable in Python; they are embedded by a stable
  insertion sort with the corresponding comparison.
* String normalisation (`str.casefold`, `str.strip`, `urllib.parse.unquote_plus`)
  is embedded on the ASCII fragment: casefold lowercases A–Z, unquote decodes
  `%XX` escapes below 0x80 and maps lone high bytes to U+FFFD (multi-byte UTF-8
  sequences are out of scope for every claim considered).
-/

section AssocList

variable {κ : Type} {ν : Type} [DecidableEq κ]

/-- First-match lookup in an insertion-ordered association list
(Python `d[k]` / `d.get(k)`). -/
def alookup : List (κ × ν) → κ → Option ν
  | [], _ => none
  | (k, v) :: l, k' => if k' = k then some v else alookup l k'

/-- Python `d[k] = v`: update the first occurrence of `k` in place,
otherwise append `(k, v)` at the end. -/
def aset : List (κ × ν) → κ → ν → List (κ × ν)
  | [], k', v' => [(k', v')]
  | (k, v) :: l, k', v' => if k' = k then (k, v') :: l else (k, v) :: aset l k' v'

/-- Python `del d[k]`: remove the first occurrence of `k`. -/
def aerase : List (κ × ν) → κ → List (κ × ν)
  | [], _ => []
  | (k, v) :: l, k' => if k' = k then l else (k, v) :: aerase l k'

/-- Python `list(d.keys())`, in insertion order. -/
def akeys (l : List (κ × ν)) : List κ := l.map Prod.fst

/-- Python `d[k]` under a `__missing__` override returning `d₀`. -/
def agetD (l : List (κ × ν)) (k : κ) (d₀ : ν) : ν := (alookup l k).getD d₀

/-- The keys of the association list are pairwise distinct, which holds for
every list that embeds an actual Python `dict`. -/
def NoDupKeys (l : List (κ × ν)) : Prop := (akeys l).Nodup

instance NoDupKeys.instDecidable (l : List (κ × ν)) : Decidable (NoDupKeys l) := by
  unfold NoDupKeys; infer_instance

end AssocList

section StableSort

variable {α : Type}

/-- Insert `a` after every element `b` with `le b a`; together with
`pySorted` this is a stable insertion sort, agreeing with Python's stable
`sorted` for the comparison `le`. -/
def pyInsert (le : α → α → Bool) (a : α) : List α → List α
  | [] => [a]
  | b :: l => if le b a then b :: pyInsert le a l else a :: b :: l

/-- Stable sort of `l` by the comparison `le` (Python `sorted(l)` for the
corresponding key). -/
def pySorted (le : α → α → Bool) (l : List α) : List α :=
  l.foldl (fun acc a => pyInsert le a acc) []

end StableSort

section PyStrings

/-- ASCII fragment of `str.casefold`: lowercase the letters A–Z. -/
def pyCasefoldChar (c : Char) : Char :=
  if 'A' ≤ c ∧ c ≤ 'Z' then Char.ofNat (c.toNat + 32) else c

/-- `str.casefold` on ASCII strings. -/
def pyCasefold (s : String) : String := String.mk (s.data.map pyCasefoldChar)

/-- The whitespace set stripped by `str.strip` (ASCII fragment). -/
def pyIsSpace (c : Char) : Bool :=
  c = ' ' ∨ c = '\t' ∨ c = '\n' ∨ c = '\x0d' ∨ c = '\x0b' ∨ c = '\x0c'

/-- `s.rstrip().lstrip()` on ASCII strings. -/
def pyStrip (s : String) : String :=
  String.mk (((s.data.reverse.dropWhile pyIsSpace).reverse).dropWhile pyIsSpace)

def isHexDigit (c : Char) : Bool :=
  ('0' ≤ c ∧ c ≤ '9') ∨ ('a' ≤ c ∧ c ≤ 'f') ∨ ('A' ≤ c ∧ c ≤ 'F')

def hexVal (c : Char) : Nat :=
  if '0' ≤ c ∧ c ≤ '9' then c.toNat - '0'.toNat
  else if 'a' ≤ c ∧ c ≤ 'f' then c.toNat - 'a'.toNat + 10
  else if 'A' ≤ c ∧ c ≤ 'F' then c.toNat - 'A'.toNat + 10
  else 0

/-- `urllib.parse.unquote_plus` on the character list: `+` becomes a space and
a valid `%XX` escape is decoded; a malformed escape is kept literally.  Escaped
bytes at or above 0x80 are mapped to U+FFFD (Python decodes runs of escaped
bytes as UTF-8 with replacement; for the single-byte escapes modelled here the
results agree, and multi-byte sequences are outside the scope of the claims). -/
def unquotePlusCharsAux : Nat → List Char → List Char
  | _, [] => []
  | 0, l => l
  | Nat.succ n, c :: rest =>
    if c = '+' then ' ' :: unquotePlusCharsAux n rest
    else if c = '%' then
      match rest with
      | h1 :: h2 :: rest' =>
        if isHexDigit h1 ∧ isHexDigit h2 then
          (if hexVal h1 * 16 + hexVal h2 < 128 then Char.ofNat (hexVal h1 * 16 + hexVal h2)
           else '�') :: unquotePlusCharsAux n rest'
        else '%' :: unquotePlusCharsAux n rest
      | _ => '%' :: unquotePlusCharsAux n rest
    else c :: unquotePlusCharsAux n rest

/-- Every step of `unquotePlusCharsAux` consumes at least one character and
one unit of fuel, so fuel equal to the input length never runs out. -/
def unquotePlusChars (l : List Char) : List Char := unquotePlusCharsAux l.length l

/-- `urllib.parse.unquote_plus` on ASCII strings. -/
def unquote_plus (s : String) : String := String.mk (unquotePlusChars s.data)

end PyStrings

/-! ## CategoryDictionary (`bot.py`, class `CategoryDictionary`)

The forward map `self : dict[int, str]` of ids to keywords and the
`reverse_lookup : dict[str, int]` of keywords to ids.  The CSV side effects of
`update_category` / `checkpoint` are not modelled: no operation considered by
the claims ever reads the categories file back. -/

structure CategoryDictionary where
  forward : List (Int × String)
  reverse_lookup : List (String × Int)
  next_index : Int
deriving DecidableEq

/-- `CategoryDictionary.__init__`. -/
def CategoryDictionary.empty : CategoryDictionary :=
  { forward := [], reverse_lookup := [], next_index := 1 }

/-- `CategoryDictionary.read_categories`, acting on the parsed rows
`(int(row[0]), row[1])` of the categories CSV file. -/
def CategoryDictionary.read_categories (s : CategoryDictionary)
    (rows : List (Int × String)) : CategoryDictionary × Bool :=
  let step := fun (acc : List (Int × String) × List (String × Int) × Int)
      (row : Int × String) =>
    let idx := if row.1 > acc.2.2 then row.1 else acc.2.2
    (aset acc.1 row.1 (unquote_plus row.2),
     (aset acc.2.1 (unquote_plus row.2) row.1, idx))
  let r := rows.foldl step (s.forward, s.reverse_lookup, s.next_index)
  ({ forward := r.1, reverse_lookup := r.2.1, next_index := r.2.2 },
   decide (r.2.2 > s.next_index))

/-- `CategoryDictionary.get_index`: normalize (casefold, then unquote) and look
the keyword up in the reverse map, 0 when absent. -/
def CategoryDictionary.get_index (s : CategoryDictionary) (item : String) : Int :=
  let cat := unquote_plus (pyCasefold item)
  match alookup s.reverse_lookup cat with
  | some i => i
  | none => 0

/-- Python `max` over a nonempty list of ints (callers guard emptiness). -/
def listMaxInt : List Int → Int
  | [] => 0
  | [a] => a
  | a :: l => max a (listMaxInt l)

/-- `CategoryDictionary.add_category`: normalize the keyword
(`rstrip/lstrip`, `casefold`, `unquote_plus`), return the existing index if
`get_index` finds one, otherwise insert under `max(keys) + 1` (1 when empty),
updating both maps. -/
def CategoryDictionary.add_category (s : CategoryDictionary) (cat : String) :
    Int × CategoryDictionary :=
  let category := unquote_plus (pyCasefold (pyStrip cat))
  let idx := s.get_index category
  if idx ≠ 0 then (idx, s)
  else
    let idx := if s.forward.length ≠ 0 then listMaxInt (akeys s.forward) + 1 else 1
    (idx, { s with
              forward := aset s.forward idx (unquote_plus category),
              reverse_lookup := aset s.reverse_lookup (unquote_plus category) idx })

/-- `CategoryDictionary.delete_category`.  When the key is live its keyword is
removed from both maps; `none` models the `KeyError` that Python's
`del self.reverse_lookup[keyword]` raises when the reverse map lacks the
keyword. -/
def CategoryDictionary.delete_category (s : CategoryDictionary) (key : Int) :
    Option CategoryDictionary :=
  match alookup s.forward key with
  | none => some s
  | some kw =>
    match alookup s.reverse_lookup kw with
    | none => none
    | some _ => some { s with
                         forward := aerase s.forward key,
                         reverse_lookup := aerase s.reverse_lookup kw }

/-- The `all_kws` grouping loop of `find_duplicates`: map each keyword to the
list of ids carrying it, in iteration order. -/
def groupKwsAux : List (Int × String) → List (String × List Int) →
    List (String × List Int)
  | [], acc => acc
  | (i, kw) :: rest, acc =>
    match alookup acc kw with
    | none => groupKwsAux rest (acc ++ [(kw, [i])])
    | some ids => groupKwsAux rest (aset acc kw (ids ++ [i]))

def strLeBool (a b : String) : Bool := decide (a ≤ b)

/-- The inner replacement loop of `find_duplicates` for one keyword's id list:
the last id is canonical (`id_list.pop()`), every other id (popped from the
end) is recorded in the replacement map and deleted from the forward map. -/
def procDupGroup (acc : List (Int × Int) × List (Int × String)) (ids : List Int) :
    List (Int × Int) × List (Int × String) :=
  if ids.length > 1 then
    match ids.reverse with
    | [] => acc
    | d :: rest => rest.foldl (fun a i => (aset a.1 i d, aerase a.2 i)) acc
  else acc

/-- `CategoryDictionary.find_duplicates`: group ids by keyword, then for every
keyword held by several ids keep the last id and delete the others, returning
the replacement map `old id ↦ canonical id`. -/
def CategoryDictionary.find_duplicates (s : CategoryDictionary) :
    List (Int × Int) × CategoryDictionary :=
  let all_kws := groupKwsAux s.forward []
  let all_keys := pySorted strLeBool (akeys all_kws)
  let r := all_keys.foldl
    (fun acc kw =>
      match alookup all_kws kw with
      | none => acc
      | some ids => procDupGroup acc ids)
    ([], s.forward)
  (r.1, { s with forward := r.2 })

/-! ## Categories (`bot.py`, class `Categories`)

The per-image map of category id to vote count; `__missing__` returns 0. -/

/-- `Categories`: category id ↦ vote count, insertion-ordered. -/
abbrev Categories := List (Int × Int)

/-- `Categories.add_category`.  `exists` is Python's `self.get(c) != 0`, which
is `True` when the key is absent (`None != 0`); either branch then stores
`self[c] + count` resp. `count`, where `self[c]` goes through `__missing__`. -/
def Categories.add_category (m : Categories) (category count : Int) :
    Categories × Bool :=
  let exi : Bool :=
    match alookup m category with
    | none => true
    | some v => decide (v ≠ 0)
  if exi then (aset m category (agetD m category 0 + count), exi)
  else (aset m category count, exi)

/-- `Categories.del_category`.  On a key stored with count 0 the existence test
`self.get(c) != 0` fails and nothing is removed; on an absent key the test
succeeds (`None != 0`) and the following `del` raises `KeyError`, modelled as
`none`. -/
def Categories.del_category (m : Categories) (category : Int) :
    Option (Categories × Bool) :=
  match alookup m category with
  | none => none
  | some v => if v ≠ 0 then some (aerase m category, true) else some (m, false)

/-! ## Image and ImageDictionary (`bot.py`, classes `Image`, `ImageDictionary`) -/

structure Image where
  link_key : Int
  url : String
  categories : Categories
deriving DecidableEq

/-- `Image.has_category`: dict membership `key_ in self.categories`. -/
def Image.has_category (im : Image) (key : Int) : Bool :=
  decide (key ∈ akeys im.categories)

/-- A row of the images CSV files, with typed cells: `int(row[0])`, `row[1]`,
and the `(category id, count)` pairs of the remaining columns. -/
structure Row where
  rid : Int
  rurl : String
  rcats : List (Int × Int)
deriving DecidableEq

/-- `Image.serialize`: id, url, then the category pairs in dict order. -/
def Image.serialize (im : Image) : Row :=
  { rid := im.link_key, rurl := im.url, rcats := im.categories }

/-- Reading the category columns of a row back into a `Categories` map, via
`Categories.add_category` as in `restore_image` / `read_images`. -/
def parseRowCats (pairs : List (Int × Int)) : Categories :=
  pairs.foldl (fun m p => (Categories.add_category m p.1 p.2).1) []

/-- The image dictionary: the live map, the id counter and the rows of the two
backing CSV files (`url_file` for live images, `deleted_url_file` for the
quarantine). -/
structure ImageDictionary where
  live : List (Int × Image)
  next_image_id : Int
  url_file : List Row
  deleted_url_file : List Row
deriving DecidableEq

def intLeBool (a b : Int) : Bool := decide (a ≤ b)

/-- `ImageDictionary.checkpoint`: rewrite `url_file` with one serialized row
per live image, in ascending id order. -/
def ImageDictionary.checkpoint (t : ImageDictionary) : ImageDictionary × Bool :=
  let sorted_keys := pySorted intLeBool (akeys t.live)
  let rows := sorted_keys.foldl
    (fun acc id =>
      match alookup t.live id with
      | some im => acc ++ [im.serialize]
      | none => acc)
    []
  ({ t with url_file := rows }, decide (sorted_keys.length > 0))

/-- `ImageDictionary.delete_image`: when the id is live, append its serialized
row to the quarantine file, drop it from the live map and checkpoint;
otherwise return `False` and change nothing. -/
def ImageDictionary.delete_image (t : ImageDictionary) (id : Int) :
    Bool × ImageDictionary :=
  match alookup t.live id with
  | none => (false, t)
  | some im =>
    let t1 := { t with
                  live := aerase t.live id,
                  deleted_url_file := t.deleted_url_file ++ [im.serialize] }
    (true, t1.checkpoint.1)

/-- The loop state of `restore_image`: the live map, the id counter, the rows
appended to `url_file` by `append_image`, the mutable loop variable `id_`
(which the duplicate branch reassigns), the result id, and the quarantine rows
kept so far. -/
structure RestoreState where
  live : List (Int × Image)
  next : Int
  urlFile : List Row
  target : Int
  restoredId : Int
  kept : List Row
deriving DecidableEq

/-- One iteration of the `restore_image` row loop.  A matching row is parsed;
if its id is free it is restored in place, otherwise a fresh id is allocated
and — as in the source — the image stored under it carries an *empty*
category map (`Image(id_, url_, Categories())`) and is appended to `url_file`
by `append_image`.  A non-matching row is kept for the rewritten quarantine
file.  Python's `del` has no counterpart here because the loop only reads. -/
def restoreStep (st : RestoreState) (row : Row) : RestoreState :=
  if st.target = row.rid then
    let image_cats := parseRowCats row.rcats
    if st.target ∈ akeys st.live then
      let newid := st.next
      let img : Image := { link_key := newid, url := row.rurl, categories := [] }
      { st with
          live := aset st.live newid img,
          next := st.next + 1,
          urlFile := st.urlFile ++ [img.serialize],
          target := newid,
          restoredId := newid }
    else
      { st with
          live := aset st.live st.target
            { link_key := st.target, url := row.rurl, categories := image_cats },
          restoredId := st.target }
  else { st with kept := st.kept ++ [row] }

def rowLeBool (a b : Row) : Bool := decide (a.rid ≤ b.rid)

/-- `ImageDictionary.restore_image`: scan the quarantine rows for the id,
restore a match (under the same id when free, else under a fresh id with the
quirks of the source), and rewrite the quarantine file with the remaining rows
sorted by id.  Returns the restored id, `-1` if no row matched. -/
def ImageDictionary.restore_image (t : ImageDictionary) (id : Int) :
    Int × ImageDictionary :=
  let st0 : RestoreState :=
    { live := t.live, next := t.next_image_id, urlFile := t.url_file,
      target := id, restoredId := -1, kept := [] }
  let st := t.deleted_url_file.foldl restoreStep st0
  (st.restoredId,
   { live := st.live, next_image_id := st.next, url_file := st.urlFile,
     deleted_url_file := pySorted rowLeBool st.kept })

/-- `ImageDictionary.find_matches`: collect, in dict order, every live image
id whose image carries at least one of the given category ids (the inner loop
appends the key and breaks at the first match). -/
def ImageDictionary.find_matches (t : ImageDictionary) (cats : List Int) :
    List Int :=
  if cats.length > 0 then
    t.live.foldl
      (fun acc p => if cats.any (fun c => p.2.has_category c) then acc ++ [p.1] else acc)
      []
  else []

/-- `ImageDictionary.renumber_images`: walk the live ids in ascending order
reassigning ids 1, 2, …; rebuild the live map, reset `next_image_id`, and
rewrite `url_file` by iterating the *old* sorted keys over the *new* map
(exactly as the source does: `for id in sorted_keys: image = self.get(id)`,
skipping `None`).  Returns the number of live images. -/
def ImageDictionary.renumber_images (t : ImageDictionary) :
    Int × ImageDictionary :=
  let sorted_keys := pySorted intLeBool (akeys t.live)
  let renum := sorted_keys.foldl
    (fun (acc : List Image × Int) key =>
      match alookup t.live key with
      | some im => (acc.1 ++ [{ im with link_key := acc.2 }], acc.2 + 1)
      | none => acc)
    ([], 1)
  let live' := renum.1.foldl (fun l im => aset l im.link_key im) []
  let file_rows := sorted_keys.foldl
    (fun acc id =>
      match alookup live' id with
      | some im => acc ++ [im.serialize]
      | none => acc)
    []
  ((live'.length : Int),
   { t with live := live', next_image_id := renum.2, url_file := file_rows })

/-- One step of the per-image category loop of `remove_duplicate_categories`.
`catids` is the snapshot `list(categories.keys())` taken before the loop;
`updated_cats` and `categories` alias the same dict, so reads see the updates
made so far.  (`count = categories[id]` and `updated_cats[x] += count` read
through `Categories.__missing__`, hence `agetD … 0`; the `del` removes a key
that is present in every reachable state.) -/
def replCatsStep (repl : List (Int × Int)) (catids : List Int)
    (st : Categories × Bool) (id : Int) : Categories × Bool :=
  if id ∈ akeys repl then
    let count := agetD st.1 id 0
    let canonical := agetD repl id 0
    let cats' :=
      if canonical ∈ catids then aset st.1 canonical (agetD st.1 canonical 0 + count)
      else aset st.1 canonical count
    (aerase cats' id, true)
  else (aset st.1 id (agetD st.1 id 0), st.2)

/-- The per-image transform of `remove_duplicate_categories`. -/
def replOneImage (repl : List (Int × Int)) (cats0 : Categories) :
    Categories × Bool :=
  (akeys cats0).foldl (replCatsStep repl (akeys cats0)) (cats0, false)

/-- One iteration of the image loop of `remove_duplicate_categories`: rewrite
this image's category map; once any image changed, checkpoint after every
iteration (as in the source). -/
def rdcStep (repl : List (Int × Int)) (acc : ImageDictionary × Bool)
    (image_id : Int) : ImageDictionary × Bool :=
  match alookup acc.1.live image_id with
  | none => acc
  | some im =>
    let rc := replOneImage repl im.categories
    let im2 : Image := { link_key := im.link_key, url := im.url, categories := rc.1 }
    let acc2 :=
      if rc.2 then ({ acc.1 with live := aset acc.1.live image_id im2 }, true)
      else acc
    if acc2.2 then (acc2.1.checkpoint.1, acc2.2) else acc2

/-- `ImageDictionary.remove_duplicate_categories`: rewrite every live image's
category map through the replacement map (`for image_id in self.keys(): …`;
the loop never adds or removes live keys). -/
def ImageDictionary.remove_duplicate_categories (t : ImageDictionary)
    (repl : List (Int × Int)) : Bool × ImageDictionary :=
  let r := (akeys t.live).foldl (rdcStep repl) (t, false)
  (r.2, r.1)

/-! ## Autoplay (`bot.py`, class `Autoplay`) -/

structure Autoplay where
  autoplay : Bool
  delay_ : Int
  sequential_ : Bool
  loop_ : Bool
  count_up_ : Bool
  start_id : Int
  count_ : Int
  cur_id_ : Int
  image_keys : List Int
deriving DecidableEq

/-- `Autoplay.__init__` (the `loop_` / `count_up_` attributes are first set by
`set_autoplay`; the constructor values here are immaterial). -/
def Autoplay.init : Autoplay :=
  { autoplay := false, delay_ := 30, sequential_ := false, loop_ := false,
    count_up_ := true, start_id := -1, count_ := 0, cur_id_ := 0, image_keys := [] }

/-- `Autoplay.set_autoplay`.  With a non-empty key snapshot the cursor starts
at 0 counting up and at `len(image_keys)` counting down, and `count_` is set
to the delay. -/
def Autoplay.set_autoplay (a : Autoplay) (state : Bool) (delay : Int)
    (sequential : Bool) (count_up : Bool) (loop : Bool) (image_keys : List Int) :
    Autoplay :=
  let base := { a with
                  autoplay := state, delay_ := delay, sequential_ := sequential,
                  loop_ := loop, count_up_ := count_up, count_ := 0, cur_id_ := 0,
                  image_keys := [] }
  if image_keys.length ≠ 0 then
    { base with
        image_keys := image_keys,
        cur_id_ := if count_up then 0 else (image_keys.length : Int),
        count_ := delay }
  else base

/-- Python list indexing (negative indices wrap; out of range raises
`IndexError`, modelled as `none`). -/
def pyListGet (l : List Int) (i : Int) : Option Int :=
  let n : Int := l.length
  let j := if i < 0 then i + n else i
  if 0 ≤ j ∧ j < n then l[j.toNat]? else none

/-- `Autoplay.fetch_next_id` in sequential mode: counting up, fetch at the
cursor then advance; when the advanced cursor passes the end, wrap under
`loop_`, otherwise disable autoplay (`set_autoplay(False)` with its default
arguments) and return -1.  Counting down, retreat first, handle passing the
front, then fetch.  The non-sequential branch draws a uniformly random key and
is modelled as `none` (no claim concerns it); `none` also stands for an
`IndexError`. -/
def Autoplay.fetch_next_id (a : Autoplay) : Option (Int × Autoplay) :=
  if a.sequential_ then
    if a.count_up_ then
      match pyListGet a.image_keys a.cur_id_ with
      | none => none
      | some cur_id =>
        let a1 := { a with cur_id_ := a.cur_id_ + 1 }
        if a1.cur_id_ ≥ (a1.image_keys.length : Int) then
          if a1.loop_ then some (cur_id, { a1 with cur_id_ := 0 })
          else some (-1, a1.set_autoplay false 30 false true false [])
        else some (cur_id, a1)
    else
      let a1 := { a with cur_id_ := a.cur_id_ - 1 }
      if a1.cur_id_ < 0 then
        if a1.loop_ then
          let a2 := { a1 with cur_id_ := (a1.image_keys.length : Int) - 1 }
          match pyListGet a2.image_keys a2.cur_id_ with
          | none => none
          | some cur_id => some (cur_id, a2)
        else some (-1, a1.set_autoplay false 30 false true false [])
      else
        match pyListGet a1.image_keys a1.cur_id_ with
        | none => none
        | some cur_id => some (cur_id, a1)
  else none

/-! ## Scoring (`bot.py`, classes `ScorePoints`, `Scorecard`) -/

structure ScorePoints where
  CreatePoints : Int
  FirstMatchPoints : Int
  SecondMatchPoints : Int
  ThirdMatchPoints : Int
deriving DecidableEq

/-- The module-level `score_points = ScorePoints()` instance. -/
def score_points : ScorePoints :=
  { CreatePoints := 15, FirstMatchPoints := 10, SecondMatchPoints := 5,
    ThirdMatchPoints := 2 }

structure Scorecard where
  nick : String
  score : Int
  create_cat_count : Int
  first_match_count : Int
  second_match_count : Int
  third_match_count : Int
  image_loves : List (Int × List String)
deriving DecidableEq

/-- `Scorecard.__init__`. -/
def Scorecard.init : Scorecard :=
  { nick := "", score := 0, create_cat_count := 0, first_match_count := 0,
    second_match_count := 0, third_match_count := 0, image_loves := [] }

/-- `Scorecard.compute_score`:
`15·creates + 10·firsts + 5·seconds + 2·thirds`, stored and returned. -/
def Scorecard.compute_score (sc : Scorecard) : Scorecard × Int :=
  let s := sc.create_cat_count * score_points.CreatePoints
         + sc.first_match_count * score_points.FirstMatchPoints
         + sc.second_match_count * score_points.SecondMatchPoints
         + sc.third_match_count * score_points.ThirdMatchPoints
  ({ sc with score := s }, s)

/-- The comparison of `sorted(image.categories.items(), key=lambda x: x[1],
reverse=True)`: by vote count descending, stable. -/
def catLeDescBool (p q : Int × Int) : Bool := decide (q.2 ≤ p.2)

/-- `Scorecard.update_scores`, parameterised by the channel's category and
image dictionaries (reached through the global `channel_data` in the source).
`sorted_cats.pop(0)` is destructured as `v, id_1 = …` on the
`(category id, count)` pair, so `id_1`/`id_2`/`id_3` receive the *count*
components; each recorded love's keyword is resolved through `get_index` and
compared against them. -/
def Scorecard.update_scores (sc : Scorecard)
    (category_dictionary : CategoryDictionary)
    (image_dictionary : List (Int × Image)) (image_id : Int) :
    Scorecard × Int :=
  match alookup image_dictionary image_id with
  | none => (sc, 0)
  | some image =>
    let sorted_cats := pySorted catLeDescBool image.categories
    let id_1 : Int := (sorted_cats[0]?.map Prod.snd).getD (-1)
    let id_2 : Int := (sorted_cats[1]?.map Prod.snd).getD (-2)
    let id_3 : Int := (sorted_cats[2]?.map Prod.snd).getD (-3)
    let c0 : Int × Int × Int :=
      (sc.first_match_count, sc.second_match_count, sc.third_match_count)
    let c :=
      match alookup sc.image_loves image_id with
      | none => c0
      | some loves => loves.foldl
          (fun (c : Int × Int × Int) love =>
            let cid : Int := category_dictionary.get_index love
            let c1 : Int := if cid = id_1 then c.1 + 1 else c.1
            let c2 : Int := if cid = id_2 then c.2.1 + 1 else c.2.1
            let c3 : Int := if cid = id_3 then c.2.2 + 1 else c.2.2
            (c1, c2, c3))
          c0
    let sc1 := { sc with
                   first_match_count := c.1, second_match_count := c.2.1,
                   third_match_count := c.2.2 }
    sc1.compute_score

/-! ## Specification predicates and reachability -/

/-- The keyword-to-id reverse map is the exact inverse of the id-to-keyword
forward map: `reverse[kw] = id` holds if and only if `forward[id] = kw`. -/
def InverseMaps (s : CategoryDictionary) : Prop :=
  ∀ (kw : String) (i : Int),
    alookup s.reverse_lookup kw = some i ↔ alookup s.forward i = some kw

/-- A keyword whose normalized form (strip, casefold, unquote — as in
`add_category`) is stable under the renormalization `get_index` applies when
looking it up (another casefold before unquoting).  Keywords containing no
percent-escape that decodes to an upper-case letter qualify. -/
abbrev StableKeyword (cat : String) : Prop :=
  unquote_plus (pyCasefold (unquote_plus (pyCasefold (pyStrip cat))))
    = unquote_plus (unquote_plus (pyCasefold (pyStrip cat)))

/-- Category-dictionary states reachable from a fresh store by `add_category`
on stable keywords and by `delete_category`. -/
inductive CatReachable : CategoryDictionary → Prop where
  | empty : CatReachable CategoryDictionary.empty
  | add (s : CategoryDictionary) (cat : String) :
      CatReachable s → StableKeyword cat → CatReachable (s.add_category cat).2
  | delete (s s' : CategoryDictionary) (key : Int) :
      CatReachable s → s.delete_category key = some s' → CatReachable s'

/-- The well-formedness invariant carried by the reachability induction:
both maps have distinct keys, ids are positive, and the maps are mutually
inverse. -/
def CatInv (s : CategoryDictionary) : Prop :=
  NoDupKeys s.forward ∧ NoDupKeys s.reverse_lookup ∧
  (∀ i ∈ akeys s.forward, 1 ≤ i) ∧ InverseMaps s

/-! ## Concrete fixtures used by the claim theorems -/

/-- C1 fixture: the claim's scoring scenario with category ids 10 (`alpha`,
5 votes), 20 (`beta`, 3 votes), 30 (`gamma`, 1 vote). -/
def cdScore : CategoryDictionary :=
  { forward := [(10, "alpha"), (20, "beta"), (30, "gamma")],
    reverse_lookup := [("alpha", 10), ("beta", 20), ("gamma", 30)],
    next_index := 31 }

def imgScore : Image :=
  { link_key := 1, url := "u", categories := [(10, 5), (20, 3), (30, 1)] }

/-- C1 fixture: a player whose loves on image 1 resolve to `alpha` (the
first-ranked category) and `gamma` (the third-ranked category). -/
def scScore : Scorecard :=
  { Scorecard.init with image_loves := [(1, ["alpha", "gamma"])] }

/-- C2 fixture: autoplay enabled in sequential, forward, non-looping mode
over the snapshot `[5, 9, 2]`. -/
def apSeq : Autoplay := Autoplay.init.set_autoplay true 30 true true false [5, 9, 2]

/-- C2: the results and final autoplay flag of three chained `fetch_next_id`
calls starting from `apSeq`. -/
def apSeqRun3 : Option (Int × Int × Int × Bool) :=
  apSeq.fetch_next_id.bind fun r1 =>
    r1.2.fetch_next_id.bind fun r2 =>
      r2.2.fetch_next_id.map fun r3 => (r1.1, r2.1, r3.1, r3.2.autoplay)

/-- C8 fixture: two live images under the non-dense ids 2 and 5. -/
def storeRenum : ImageDictionary :=
  { live := [(2, { link_key := 2, url := "a", categories := [] }),
             (5, { link_key := 5, url := "b", categories := [(4, 1)] })],
    next_image_id := 6, url_file := [], deleted_url_file := [] }

/-- C9 fixture: an empty live map with a quarantine file whose rows are not
sorted by id. -/
def storeQuar : ImageDictionary :=
  { live := [], next_image_id := 1, url_file := [],
    deleted_url_file := [{ rid := 9, rurl := "a", rcats := [] },
                         { rid := 5, rurl := "b", rcats := [] }] }

/-- C5 counterexample fixture: image 1 is live, and the quarantine file
already holds an older row for id 1 with a different URL. -/
def storePre : ImageDictionary :=
  { live := [(1, { link_key := 1, url := "new", categories := [(7, 2)] })],
    next_image_id := 2, url_file := [],
    deleted_url_file := [{ rid := 1, rurl := "old", rcats := [] }] }

/-- C5 witness fixture: image 4 is live with two voted categories and the
quarantine file holds no row for id 4. -/
def storeRt : ImageDictionary :=
  { live := [(4, { link_key := 4, url := "pic", categories := [(7, 2), (9, 1)] })],
    next_image_id := 5, url_file := [],
    deleted_url_file := [{ rid := 6, rurl := "other", rcats := [(1, 1)] }] }

/-- C7 fixture: keyword `cat` is held by ids 3 and 7 (3 first). -/
def cdMerge : CategoryDictionary :=
  { forward := [(3, "cat"), (7, "cat")], reverse_lookup := [("cat", 7)],
    next_index := 8 }

/-- C7 fixture: image 1 votes for 3 (not 7), image 2 for both 7 and 3. -/
def storeMerge : ImageDictionary :=
  { live := [(1, { link_key := 1, url := "u", categories := [(3, 2), (5, 1)] }),
             (2, { link_key := 2, url := "v", categories := [(7, 4), (3, 1)] })],
    next_image_id := 3, url_file := [], deleted_url_file := [] }

/-- C7 fixture: the pre-merge image under live id 1 of `storeMerge`. -/
def imgMerge1 : Image := { link_key := 1, url := "u", categories := [(3, 2), (5, 1)] }

/-- C6 fixture: image 1 carries category 3 with a zero count, image 2 carries
category 4. -/
def storeFind : ImageDictionary :=
  { live := [(1, { link_key := 1, url := "u", categories := [(3, 0)] }),
             (2, { link_key := 2, url := "v", categories := [(4, 1)] })],
    next_image_id := 3, url_file := [], deleted_url_file := [] }

/-- C3 counterexample fixture: loading a categories file that lists the same
keyword under two ids. -/
def cdLoadDup : CategoryDictionary :=
  (CategoryDictionary.empty.read_categories [(1, "cat"), (2, "cat")]).1

/-! ## Helper lemmas -/

section AssocLemmas

variable {κ : Type} {ν : Type} [DecidableEq κ]

theorem alookup_aset_self (l : List (κ × ν)) (k : κ) (v : ν) :
    alookup (aset l k v) k = some v := by
  induction l with
  | nil => simp [aset, alookup]
  | cons p l ih =>
    obtain ⟨a, b⟩ := p
    by_cases h : k = a
    · simp [aset, alookup, h]
    · simp [aset, alookup, h, ih]

theorem alookup_aset_ne (l : List (κ × ν)) {k k' : κ} (v : ν) (h : k' ≠ k) :
    alookup (aset l k v) k' = alookup l k' := by
  induction l with
  | nil => simp [aset, alookup, h]
  | cons p l ih =>
    obtain ⟨a, b⟩ := p
    by_cases ha : k = a
    · subst ha
      simp [aset, alookup, h]
    · by_cases ha' : k' = a
      · simp [aset, alookup, ha, ha']
      · simp [aset, alookup, ha, ha', ih]

theorem aset_of_alookup_eq (l : List (κ × ν)) {k : κ} {v : ν}
    (h : alookup l k = some v) : aset l k v = l := by
  induction l with
  | nil => simp [alookup] at h
  | cons p l ih =>
    obtain ⟨a, b⟩ := p
    by_cases ha : k = a
    · subst ha
      simp [alookup] at h
      simp [aset, h]
    · simp [alookup, ha] at h
      simp [aset, ha, ih h]

theorem aset_of_alookup_none (l : List (κ × ν)) {k : κ} (v : ν)
    (h : alookup l k = none) : aset l k v = l ++ [(k, v)] := by
  induction l with
  | nil => simp [aset]
  | cons p l ih =>
    obtain ⟨a, b⟩ := p
    by_cases ha : k = a
    · simp [alookup, ha] at h
    · simp [alookup, ha] at h
      simp [aset, ha, ih h]

theorem mem_akeys_iff_alookup (l : List (κ × ν)) (k : κ) :
    k ∈ akeys l ↔ (alookup l k).isSome := by
  induction l with
  | nil => simp [akeys, alookup]
  | cons p l ih =>
    obtain ⟨a, b⟩ := p
    by_cases ha : k = a
    · simp [akeys, alookup, ha]
    · simpa [akeys, alookup, ha] using ih

theorem alookup_none_of_not_mem_akeys (l : List (κ × ν)) {k : κ}
    (h : k ∉ akeys l) : alookup l k = none := by
  rcases hl : alookup l k with _ | v
  · rfl
  · exfalso
    exact h ((mem_akeys_iff_alookup l k).mpr (by simp [hl]))

theorem not_mem_akeys_of_alookup_none (l : List (κ × ν)) {k : κ}
    (h : alookup l k = none) : k ∉ akeys l := by
  intro hk
  have := (mem_akeys_iff_alookup l k).mp hk
  simp [h] at this

theorem aerase_of_alookup_none (l : List (κ × ν)) {k : κ}
    (h : alookup l k = none) : aerase l k = l := by
  induction l with
  | nil => rfl
  | cons p l ih =>
    obtain ⟨a, b⟩ := p
    by_cases ha : k = a
    · simp [alookup, ha] at h
    · simp [alookup, ha] at h
      simp [aerase, ha, ih h]

theorem alookup_aerase_self (l : List (κ × ν)) (k : κ) (hnd : NoDupKeys l) :
    alookup (aerase l k) k = none := by
  induction l with
  | nil => rfl
  | cons p l ih =>
    obtain ⟨a, b⟩ := p
    have hnd' : NoDupKeys l := (List.nodup_cons.mp hnd).2
    by_cases ha : k = a
    · subst ha
      have hk : k ∉ akeys l := (List.nodup_cons.mp hnd).1
      simpa [aerase] using alookup_none_of_not_mem_akeys l hk
    · simp [aerase, alookup, ha, ih hnd']

theorem alookup_aerase_ne (l : List (κ × ν)) {k k' : κ} (h : k' ≠ k) :
    alookup (aerase l k) k' = alookup l k' := by
  induction l with
  | nil => rfl
  | cons p l ih =>
    obtain ⟨a, b⟩ := p
    by_cases ha : k = a
    · subst ha
      simp [aerase, alookup, h]
    · by_cases ha' : k' = a
      · simp [aerase, alookup, ha, ha']
      · simp [aerase, alookup, ha, ha', ih]

theorem alookup_aerase_of_none (l : List (κ × ν)) {k : κ} (k' : κ)
    (h : alookup l k = none) : alookup (aerase l k') k = none := by
  by_cases hk : k = k'
  · subst hk
    rw [aerase_of_alookup_none l h]
    exact h
  · rw [alookup_aerase_ne l hk]
    exact h

theorem NoDupKeys_cons {p : κ × ν} {l : List (κ × ν)} :
    NoDupKeys (p :: l) ↔ p.1 ∉ akeys l ∧ NoDupKeys l := by
  simp [NoDupKeys, akeys]

theorem mem_akeys_cons {k : κ} {p : κ × ν} {l : List (κ × ν)} :
    k ∈ akeys (p :: l) ↔ k = p.1 ∨ k ∈ akeys l := by
  simp [akeys]

theorem akeys_aset_of_mem (l : List (κ × ν)) {k : κ} (v : ν)
    (h : k ∈ akeys l) : akeys (aset l k v) = akeys l := by
  induction l with
  | nil => simp [akeys] at h
  | cons p l ih =>
    obtain ⟨a, b⟩ := p
    by_cases ha : k = a
    · simp [aset, akeys, ha]
    · have h' : k ∈ akeys l := by
        rcases mem_akeys_cons.mp h with h1 | h1
        · exact absurd h1 ha
        · exact h1
      have he : aset ((a, b) :: l) k v = (a, b) :: aset l k v := by simp [aset, ha]
      rw [he]
      show a :: akeys (aset l k v) = a :: akeys l
      rw [ih h']

theorem akeys_aset_of_none (l : List (κ × ν)) {k : κ} (v : ν)
    (h : alookup l k = none) : akeys (aset l k v) = akeys l ++ [k] := by
  rw [aset_of_alookup_none l v h]
  simp [akeys]

theorem mem_akeys_aset (l : List (κ × ν)) (k a : κ) (v : ν) :
    a ∈ akeys (aset l k v) ↔ a ∈ akeys l ∨ a = k := by
  by_cases h : k ∈ akeys l
  · rw [akeys_aset_of_mem l v h]
    constructor
    · exact fun ha => Or.inl ha
    · rintro (ha | rfl)
      · exact ha
      · exact h
  · rw [akeys_aset_of_none l v (alookup_none_of_not_mem_akeys l h)]
    simp

theorem NoDupKeys_aset (l : List (κ × ν)) (k : κ) (v : ν) (hnd : NoDupKeys l) :
    NoDupKeys (aset l k v) := by
  by_cases h : k ∈ akeys l
  · unfold NoDupKeys
    rw [akeys_aset_of_mem l v h]
    exact hnd
  · unfold NoDupKeys
    rw [akeys_aset_of_none l v (alookup_none_of_not_mem_akeys l h)]
    simpa [List.nodup_append] using ⟨hnd, h⟩

theorem akeys_aerase_sublist (l : List (κ × ν)) (k : κ) :
    (akeys (aerase l k)).Sublist (akeys l) := by
  induction l with
  | nil => simp [aerase, akeys]
  | cons p l ih =>
    obtain ⟨a, b⟩ := p
    by_cases ha : k = a
    · have he : aerase ((a, b) :: l) k = l := by simp [aerase, ha]
      rw [he]
      show (akeys l).Sublist (a :: akeys l)
      exact List.sublist_cons_self a (akeys l)
    · have he : aerase ((a, b) :: l) k = (a, b) :: aerase l k := by simp [aerase, ha]
      rw [he]
      show (a :: akeys (aerase l k)).Sublist (a :: akeys l)
      exact List.Sublist.cons₂ a ih

theorem NoDupKeys_aerase (l : List (κ × ν)) (k : κ) (hnd : NoDupKeys l) :
    NoDupKeys (aerase l k) := (akeys_aerase_sublist l k).nodup hnd

theorem mem_of_alookup_eq_some (l : List (κ × ν)) {k : κ} {v : ν}
    (h : alookup l k = some v) : (k, v) ∈ l := by
  induction l with
  | nil => simp [alookup] at h
  | cons p l ih =>
    obtain ⟨a, b⟩ := p
    by_cases ha : k = a
    · subst ha
      simp [alookup] at h
      simp [h]
    · simp [alookup, ha] at h
      exact List.mem_cons_of_mem _ (ih h)

theorem alookup_eq_some_of_mem (l : List (κ × ν)) {k : κ} {v : ν}
    (hnd : NoDupKeys l) (h : (k, v) ∈ l) : alookup l k = some v := by
  induction l with
  | nil => simp at h
  | cons p l ih =>
    obtain ⟨a, b⟩ := p
    rcases List.mem_cons.mp h with h1 | h1
    · rw [Prod.ext_iff] at h1
      obtain ⟨rfl, rfl⟩ := h1
      simp [alookup]
    · have hnd' : NoDupKeys l := (NoDupKeys_cons.mp hnd).2
      by_cases ha : k = a
      · subst ha
        exfalso
        have hmem : k ∈ akeys l := by
          unfold akeys
          exact List.mem_map.mpr ⟨(k, v), h1, rfl⟩
        exact (NoDupKeys_cons.mp hnd).1 hmem
      · simp [alookup, ha]
        exact ih hnd' h1

theorem mem_aset_cases (l : List (κ × ν)) (k : κ) (v : ν) {p : κ × ν}
    (h : p ∈ aset l k v) : p ∈ l ∨ p = (k, v) := by
  induction l with
  | nil => simp [aset] at h; simp [h]
  | cons q l ih =>
    obtain ⟨a, b⟩ := q
    by_cases ha : k = a
    · subst ha
      simp [aset] at h
      rcases h with h1 | h1
      · exact Or.inr (by simp [h1])
      · exact Or.inl (List.mem_cons_of_mem _ h1)
    · simp [aset, ha] at h
      rcases h with h1 | h1
      · exact Or.inl (by simp [h1])
      · rcases ih h1 with h2 | h2
        · exact Or.inl (List.mem_cons_of_mem _ h2)
        · exact Or.inr h2

theorem pyInsert_perm (le : α → α → Bool) (a : α) (l : List α) :
    (pyInsert le a l).Perm (a :: l) := by
  induction l with
  | nil => simp [pyInsert]
  | cons b l ih =>
    by_cases h : le b a
    · simp only [pyInsert, h, if_pos]
      exact (ih.cons b).trans (List.Perm.swap a b l)
    · simp [pyInsert, h]

theorem pySorted_perm (le : α → α → Bool) (l : List α) :
    (pySorted le l).Perm l := by
  suffices h : ∀ (l : List α) (acc : List α),
      (l.foldl (fun acc a => pyInsert le a acc) acc).Perm (acc ++ l) by
    simpa using h l []
  intro l
  induction l with
  | nil => intro acc; simp
  | cons a l ih =>
    intro acc
    simp only [List.foldl_cons]
    exact (ih (pyInsert le a acc)).trans
      (((pyInsert_perm le a acc).append_right l).trans List.perm_middle.symm)

end AssocLemmas

/-! ## Claim theorems -/

/-- Claim C1: `update_scores` is claimed to rank the image's categories by
vote count, take the top three *category ids* and credit a player's tier
counters when a love resolves to one of them, so that on the scenario
(categories `alpha:5`, `beta:3`, `gamma:1`; loves resolving to `alpha` and
`gamma`) the player is credited `10 + 2 = 12`.  The source instead
destructures each `(category id, count)` pair as `v, id_k = …`, so the
resolved ids are compared against the top three *counts*: on that very
scenario no tier counter moves and the recomputed score is 0, not 12. -/
theorem C1_update_scores_compares_ids_to_counts :
    (scScore.update_scores cdScore [(1, imgScore)] 1).2 = 0 ∧
    (scScore.update_scores cdScore [(1, imgScore)] 1).1.first_match_count = 0 ∧
    (scScore.update_scores cdScore [(1, imgScore)] 1).1.second_match_count = 0 ∧
    (scScore.update_scores cdScore [(1, imgScore)] 1).1.third_match_count = 0 := by
  decide

/-- Claim C2: over the snapshot `[5, 9, 2]` in sequential, non-looping,
forward mode, the claim expects `next_id()` to return 5, 9, 2 and only the
fourth call to disable autoplay and return -1.  The source checks exhaustion
after advancing the cursor and discards the value it just fetched, so the
*third* call already disables autoplay and returns -1: the last snapshot
element 2 is never returned. -/
theorem C2_third_call_already_returns_neg_one :
    apSeqRun3 = some (5, 9, -1, false) := by decide

/-- Claim C8: `renumber()` is claimed to reassign the live ids densely to
`1..n` preserving the original ascending order, reset `next_id` to `n+1`,
return `n`, and rewrite the backing file with exactly one serialized row per
live image in the new id order.  On the store with live ids 2 (`a`) and 5
(`b`, one voted category), the in-memory parts all hold — the call returns 2,
the live map becomes exactly `{1 ↦ a, 2 ↦ b}` in order, and `next_id` is 3 —
but the file-rewrite loop iterates the *old* sorted keys `[2, 5]` over the
*new* map (`for id in sorted_keys: image = self.get(id)`): old key 2 finds
the renumbered image `b` and old key 5 finds nothing, so the rewritten file
holds exactly the single row for `b` — the image `a` has no row, and the row
count differs from the live image count, refuting the one-row-per-live-image
part of claim C8. -/
theorem C8_renumber_rewrites_file_incompletely :
    storeRenum.renumber_images.1 = 2 ∧
    storeRenum.renumber_images.2.live
      = [(1, { link_key := 1, url := "a", categories := [] }),
         (2, { link_key := 2, url := "b", categories := [(4, 1)] })] ∧
    storeRenum.renumber_images.2.next_image_id = 3 ∧
    storeRenum.renumber_images.2.url_file
      = [{ rid := 2, rurl := "b", rcats := [(4, 1)] }] ∧
    storeRenum.renumber_images.2.url_file.length
      ≠ storeRenum.renumber_images.2.live.length := by decide

/-- Claim C3 (counterexample): loading a categories file that lists keyword
`cat` under both id 1 and id 2 is a public-operation sequence (a single
`read_categories` on a fresh store) after which the reverse map is *not* the
exact inverse of the forward map: `forward[1] = "cat"` but
`reverse["cat"] = 2`. -/
theorem C3_counterexample_duplicate_keyword_load :
    alookup cdLoadDup.forward 1 = some "cat" ∧
    alookup cdLoadDup.reverse_lookup "cat" = some 2 ∧
    ¬ InverseMaps cdLoadDup := by
  refine ⟨by decide, by decide, fun hinv => ?_⟩
  have h1 := (hinv "cat" 1).mpr (by decide)
  have h2 : alookup cdLoadDup.reverse_lookup "cat" = some 2 := by decide
  rw [h1] at h2
  exact absurd (Option.some.inj h2) (by decide)

/-- Claim C4 (counterexample): the keywords `k1 = k2 = "%41"` trivially
normalize identically, yet `add("%41")` on a fresh store returns id 1 and a
second `add("%41")` returns id 2 and inserts a new entry: `add_category`
stores the keyword as `"A"` (unquote after casefold) while `get_index`
looks up `"a"` (casefold again before unquoting), so the duplicate is never
found. -/
theorem C4_counterexample_percent_escape :
    (CategoryDictionary.empty.add_category "%41").1 = 1 ∧
    ((CategoryDictionary.empty.add_category "%41").2.add_category "%41").1 = 2 ∧
    ((CategoryDictionary.empty.add_category "%41").2.add_category "%41").2.forward.length = 2 := by
  decide

/-- Claim C5 (counterexample): when the quarantine file already holds an
older row for the id (here id 1 with URL `old`), `delete(1)` appends the
fresh row after it and `restore(1)` restores the *first* matching row, so the
live image under id 1 comes back with URL `old`, not the pre-delete URL
`new`; the pre-delete row is then restored under the fresh id 2 — which the
call returns — with an *empty* category map instead of the pre-delete
`[(7, 2)]`. -/
theorem C5_counterexample_earlier_quarantine_row :
    (storePre.delete_image 1).1 = true ∧
    ((storePre.delete_image 1).2.restore_image 1).1 = 2 ∧
    (alookup ((storePre.delete_image 1).2.restore_image 1).2.live 1).map Image.url
      = some "old" ∧
    (alookup ((storePre.delete_image 1).2.restore_image 1).2.live 2).map
        (fun im => (im.url, im.categories))
      = some ("new", []) := by decide

/-- Claim C9 (counterexample): `restore(7)` on a store whose quarantine file
holds rows for ids 9 and 5 (in that order) returns -1 and raises nothing, but
it does *not* leave the store unchanged: the quarantine file is rewritten
with its rows sorted by id. -/
theorem C9_counterexample_restore_reorders_quarantine :
    (storeQuar.restore_image 7).1 = -1 ∧
    (storeQuar.restore_image 7).2.deleted_url_file ≠ storeQuar.deleted_url_file := by
  decide

/-- Claim C10: a category entry stored with vote count 0 is treated as absent
by the existence checks of `Categories.add_category` and
`Categories.del_category`: `del_category` returns `False` and removes
nothing, and `add_category` reports the category as previously absent
(returns `False`) and stores the fresh count. -/
theorem C10_zero_count_entry_treated_as_absent (m : Categories) (c n : Int)
    (h : alookup m c = some 0) :
    Categories.del_category m c = some (m, false) ∧
    Categories.add_category m c n = (aset m c n, false) ∧
    alookup (Categories.add_category m c n).1 c = some n := by
  have hadd : Categories.add_category m c n = (aset m c n, false) := by
    unfold Categories.add_category
    simp [h]
  refine ⟨?_, hadd, ?_⟩
  · unfold Categories.del_category
    simp [h]
  · rw [hadd]
    exact alookup_aset_self m c n

/-- Claim C10 (witness): the map `[(5, 0)]` with `c = 5`, `n = 3`. -/
theorem C10_zero_count_entry_treated_as_absent_witness :
    alookup [((5 : Int), (0 : Int))] 5 = some 0 ∧
    (Categories.del_category [(5, 0)] 5 = some ([(5, 0)], false) ∧
     Categories.add_category [(5, 0)] 5 3 = (aset [(5, 0)] 5 3, false) ∧
     alookup (Categories.add_category [(5, 0)] 5 3).1 5 = some 3) :=
  ⟨by decide, C10_zero_count_entry_treated_as_absent [(5, 0)] 5 3 (by decide)⟩

theorem le_listMaxInt {l : List Int} {k : Int} (h : k ∈ l) : k ≤ listMaxInt l := by
  induction l with
  | nil => simp at h
  | cons a l ih =>
    rcases l with _ | ⟨b, l'⟩
    · have : k = a := by simpa using h
      simp [listMaxInt, this]
    · rcases List.mem_cons.mp h with rfl | h1
      · exact le_max_left _ _
      · exact le_trans (ih h1) (le_max_right _ _)

theorem add_category_fresh_idx_pos (s : CategoryDictionary)
    (hpos : ∀ i ∈ akeys s.forward, 1 ≤ i) :
    1 ≤ (if s.forward.length ≠ 0 then listMaxInt (akeys s.forward) + 1 else 1) := by
  by_cases h : s.forward.length ≠ 0
  · rw [if_pos h]
    rcases hs : s.forward with _ | ⟨p, l⟩
    · rw [hs] at h; simp at h
    · have h1 : 1 ≤ p.1 := by
        apply hpos
        rw [hs]
        exact mem_akeys_cons.mpr (Or.inl rfl)
      have h2 : p.1 ≤ listMaxInt (akeys s.forward) := by
        apply le_listMaxInt
        rw [hs]
        exact mem_akeys_cons.mpr (Or.inl rfl)
      rw [hs] at h2
      omega
  · rw [if_neg h]

/-- Claim C4 (amended): for all keywords `k1`, `k2` that normalize
identically under url-unescape, whitespace trim and casefold, *and* whose
shared normalized form is stable under the renormalization `get_index`
applies when looking it up (unquoting its casefold equals unquoting it —
ordinary keywords qualify; percent-escapes decoding to upper-case letters do
not), `add(k1)` followed by `add(k2)` on any starting store with positive
forward ids returns the same id both times and the second call changes
nothing. -/
theorem C4_add_category_idempotent_amended (s : CategoryDictionary)
    (k1 k2 : String)
    (hpos : ∀ i ∈ akeys s.forward, 1 ≤ i)
    (hnorm : unquote_plus (pyCasefold (pyStrip k1))
      = unquote_plus (pyCasefold (pyStrip k2)))
    (hstable : StableKeyword k1) :
    ((s.add_category k1).2.add_category k2).1 = (s.add_category k1).1 ∧
    ((s.add_category k1).2.add_category k2).2 = (s.add_category k1).2 := by
  have hstable' : unquote_plus (pyCasefold (unquote_plus (pyCasefold (pyStrip k1))))
      = unquote_plus (unquote_plus (pyCasefold (pyStrip k1))) := hstable
  simp only [CategoryDictionary.add_category, CategoryDictionary.get_index, ← hnorm,
    hstable']
  rcases hA : alookup s.reverse_lookup (unquote_plus (unquote_plus (pyCasefold (pyStrip k1))))
    with _ | i
  · -- keyword not yet present: the first call inserts, the second finds it
    have hfresh : 1 ≤ (if s.forward.length ≠ 0 then listMaxInt (akeys s.forward) + 1 else 1) :=
      add_category_fresh_idx_pos s hpos
    simp only [hA]
    set idxN := if s.forward.length ≠ 0 then listMaxInt (akeys s.forward) + 1 else 1 with hidx
    have hne : idxN ≠ 0 := by omega
    simp only [if_neg (by simp : ¬((0 : Int) ≠ 0))]
    rw [alookup_aset_self]
    simp [hne]
  · by_cases hi : i = 0
    · -- found id 0: the code still takes the insertion branch, overwriting
      -- the reverse entry in place, so the second call finds the new id
      subst hi
      have hfresh : 1 ≤ (if s.forward.length ≠ 0 then listMaxInt (akeys s.forward) + 1 else 1) :=
        add_category_fresh_idx_pos s hpos
      simp only [hA]
      set idxN := if s.forward.length ≠ 0 then listMaxInt (akeys s.forward) + 1 else 1 with hidx
      have hne : idxN ≠ 0 := by omega
      simp only [if_neg (by simp : ¬((0 : Int) ≠ 0))]
      rw [alookup_aset_self]
      simp [hne]
    · -- found a non-zero id: both calls return it and change nothing
      simp [hA, hi]

/-- Claim C4 (witness): `k1 = "Cat "`, `k2 = "cat"` on the fresh store; both
calls return id 1 and the second changes nothing. -/
theorem C4_add_category_idempotent_amended_witness :
    (∀ i ∈ akeys CategoryDictionary.empty.forward, 1 ≤ i) ∧
    unquote_plus (pyCasefold (pyStrip "Cat "))
      = unquote_plus (pyCasefold (pyStrip "cat")) ∧
    StableKeyword "Cat " ∧
    (((CategoryDictionary.empty.add_category "Cat ").2.add_category "cat").1
        = (CategoryDictionary.empty.add_category "Cat ").1 ∧
     ((CategoryDictionary.empty.add_category "Cat ").2.add_category "cat").2
        = (CategoryDictionary.empty.add_category "Cat ").2) :=
  ⟨by intro i hi; simp [CategoryDictionary.empty, akeys] at hi, by decide, by decide,
   C4_add_category_idempotent_amended CategoryDictionary.empty "Cat " "cat"
     (by intro i hi; simp [CategoryDictionary.empty, akeys] at hi) (by decide) (by decide)⟩

theorem restore_foldl_no_match (rows : List Row) (st : RestoreState)
    (h : ∀ r ∈ rows, r.rid ≠ st.target) :
    rows.foldl restoreStep st = { st with kept := st.kept ++ rows } := by
  induction rows generalizing st with
  | nil => simp
  | cons r rows ih =>
    have hr : ¬(st.target = r.rid) := fun he => (h r (by simp)) he.symm
    have hstep : restoreStep st r = { st with kept := st.kept ++ [r] } := by
      unfold restoreStep
      rw [if_neg hr]
    rw [List.foldl_cons, hstep,
      ih { st with kept := st.kept ++ [r] } (fun r' hr' => h r' (by simp [hr']))]
    simp

/-- Claim C9 (amended): `delete` on a non-live id returns `False` and changes
nothing; `restore` on an id with no quarantine row returns -1, raises
nothing, and leaves the live map, `next_id` and the images file unchanged —
but it rewrites the quarantine file with the same rows sorted by id (a
permutation of the original rows; the file only stays identical when it was
already sorted). -/
theorem C9_unknown_id_sentinel_amended (t : ImageDictionary) (i : Int)
    (hdel : alookup t.live i = none)
    (hres : ∀ r ∈ t.deleted_url_file, r.rid ≠ i) :
    t.delete_image i = (false, t) ∧
    (t.restore_image i).1 = -1 ∧
    (t.restore_image i).2.live = t.live ∧
    (t.restore_image i).2.next_image_id = t.next_image_id ∧
    (t.restore_image i).2.url_file = t.url_file ∧
    (t.restore_image i).2.deleted_url_file = pySorted rowLeBool t.deleted_url_file ∧
    List.Perm (t.restore_image i).2.deleted_url_file t.deleted_url_file := by
  have hd : t.delete_image i = (false, t) := by
    unfold ImageDictionary.delete_image
    rw [hdel]
  have hfold := restore_foldl_no_match t.deleted_url_file
    { live := t.live, next := t.next_image_id, urlFile := t.url_file,
      target := i, restoredId := -1, kept := [] } (fun r hr => hres r hr)
  have hri : t.restore_image i
      = (-1, { live := t.live, next_image_id := t.next_image_id,
               url_file := t.url_file,
               deleted_url_file := pySorted rowLeBool t.deleted_url_file }) := by
    simp only [ImageDictionary.restore_image, hfold]
    simp
  refine ⟨hd, ?_, ?_, ?_, ?_, ?_, ?_⟩ <;> rw [hri]
  exact pySorted_perm rowLeBool t.deleted_url_file

/-- Claim C9 (witness): `storeQuar` with id 7: delete fails with `False`, and
restore returns -1 leaving everything but the (re-sorted) quarantine file
unchanged. -/
theorem C9_unknown_id_sentinel_amended_witness :
    alookup storeQuar.live 7 = none ∧
    (∀ r ∈ storeQuar.deleted_url_file, r.rid ≠ 7) ∧
    (storeQuar.delete_image 7 = (false, storeQuar) ∧
     (storeQuar.restore_image 7).1 = -1 ∧
     (storeQuar.restore_image 7).2.live = storeQuar.live ∧
     (storeQuar.restore_image 7).2.next_image_id = storeQuar.next_image_id ∧
     (storeQuar.restore_image 7).2.url_file = storeQuar.url_file ∧
     (storeQuar.restore_image 7).2.deleted_url_file
       = pySorted rowLeBool storeQuar.deleted_url_file ∧
     List.Perm (storeQuar.restore_image 7).2.deleted_url_file
       storeQuar.deleted_url_file) :=
  ⟨by decide, by decide, C9_unknown_id_sentinel_amended storeQuar 7 (by decide) (by decide)⟩

theorem parseRowCats_foldl (rest : Categories) (acc : Categories)
    (hfresh : ∀ k ∈ akeys rest, k ∉ akeys acc) (hnd : NoDupKeys rest) :
    rest.foldl (fun m p => (Categories.add_category m p.1 p.2).1) acc = acc ++ rest := by
  induction rest generalizing acc with
  | nil => simp
  | cons p rest ih =>
    obtain ⟨k, c⟩ := p
    have hkacc : k ∉ akeys acc := hfresh k (mem_akeys_cons.mpr (Or.inl rfl))
    have hnone : alookup acc k = none := alookup_none_of_not_mem_akeys acc hkacc
    have hstep : (Categories.add_category acc k c).1 = acc ++ [(k, c)] := by
      unfold Categories.add_category
      rw [hnone]
      simp [agetD, hnone, aset_of_alookup_none acc _ hnone]
    rw [List.foldl_cons, hstep,
      ih (acc ++ [(k, c)]) ?hfr ((NoDupKeys_cons.mp hnd).2)]
    · simp
    case hfr =>
      intro k' hk'
      have hk'k : k' ≠ k := by
        intro he
        exact (NoDupKeys_cons.mp hnd).1 (he ▸ hk')
      have hk'acc : k' ∉ akeys acc :=
        hfresh k' (mem_akeys_cons.mpr (Or.inr hk'))
      intro hmem
      have : k' ∈ akeys acc ++ [k] := by
        simpa [akeys] using hmem
      rcases List.mem_append.mp this with h1 | h1
      · exact hk'acc h1
      · exact hk'k (by simpa using h1)

theorem parseRowCats_self (m : Categories) (hnd : NoDupKeys m) :
    parseRowCats m = m := by
  unfold parseRowCats
  simpa using parseRowCats_foldl m [] (fun k _ => by simp [akeys]) hnd

/-- Claim C5 (amended): for every live image, `delete(id)` followed by
`restore(id)` — when the id is still free at restore time and the quarantine
file held no *earlier* row with the same id — yields a live image under the
same id whose URL and whole category-to-vote-count map equal the pre-delete
state. -/
theorem C5_delete_restore_roundtrip_amended (t : ImageDictionary) (i : Int)
    (im : Image)
    (hnd : NoDupKeys t.live)
    (hlive : alookup t.live i = some im)
    (hkey : im.link_key = i)
    (hndc : NoDupKeys im.categories)
    (hquar : ∀ r ∈ t.deleted_url_file, r.rid ≠ i) :
    (t.delete_image i).1 = true ∧
    ((t.delete_image i).2.restore_image i).1 = i ∧
    alookup ((t.delete_image i).2.restore_image i).2.live i
      = some { link_key := i, url := im.url, categories := im.categories } := by
  have ht2 : (t.delete_image i).1 = true ∧
      (t.delete_image i).2.live = aerase t.live i ∧
      (t.delete_image i).2.deleted_url_file
        = t.deleted_url_file ++ [im.serialize] := by
    simp only [ImageDictionary.delete_image, hlive, ImageDictionary.checkpoint]
    simp
  obtain ⟨ht2ret, ht2live, ht2del⟩ := ht2
  have hfold := restore_foldl_no_match t.deleted_url_file
    { live := (t.delete_image i).2.live, next := (t.delete_image i).2.next_image_id,
      urlFile := (t.delete_image i).2.url_file, target := i, restoredId := -1,
      kept := [] } (fun r hr => hquar r hr)
  have hfree : alookup (t.delete_image i).2.live i = none := by
    rw [ht2live]
    exact alookup_aerase_self t.live i hnd
  have hnotmem : i ∉ akeys (t.delete_image i).2.live :=
    not_mem_akeys_of_alookup_none _ hfree
  have hmatchstep :
      restoreStep
        { live := (t.delete_image i).2.live,
          next := (t.delete_image i).2.next_image_id,
          urlFile := (t.delete_image i).2.url_file, target := i,
          restoredId := -1, kept := t.deleted_url_file } im.serialize
      = { live := aset (t.delete_image i).2.live i
            { link_key := i, url := im.url, categories := im.categories },
          next := (t.delete_image i).2.next_image_id,
          urlFile := (t.delete_image i).2.url_file, target := i,
          restoredId := i, kept := t.deleted_url_file } := by
    simp only [restoreStep, Image.serialize]
    rw [if_pos hkey.symm, if_neg hnotmem,
      parseRowCats_self im.categories hndc]
  have hrx : (t.delete_image i).2.restore_image i
      = ((i : Int),
         { live := aset (t.delete_image i).2.live i
             { link_key := i, url := im.url, categories := im.categories },
           next_image_id := (t.delete_image i).2.next_image_id,
           url_file := (t.delete_image i).2.url_file,
           deleted_url_file := pySorted rowLeBool t.deleted_url_file }) := by
    simp only [ImageDictionary.restore_image, ht2del, List.foldl_append, hfold]
    simp only [List.foldl_cons, List.foldl_nil, List.nil_append]
    rw [hmatchstep]
  refine ⟨ht2ret, ?_, ?_⟩
  · rw [hrx]
  · rw [hrx]
    exact alookup_aset_self _ _ _

/-- Claim C5 (witness): `storeRt` with the live image 4 (`pic`, categories
`[(7, 2), (9, 1)]`) and no quarantine row for id 4. -/
theorem C5_delete_restore_roundtrip_amended_witness :
    NoDupKeys storeRt.live ∧
    alookup storeRt.live 4
      = some { link_key := 4, url := "pic", categories := [(7, 2), (9, 1)] } ∧
    (∀ r ∈ storeRt.deleted_url_file, r.rid ≠ 4) ∧
    ((storeRt.delete_image 4).1 = true ∧
     ((storeRt.delete_image 4).2.restore_image 4).1 = 4 ∧
     alookup ((storeRt.delete_image 4).2.restore_image 4).2.live 4
       = some { link_key := 4, url := "pic", categories := [(7, 2), (9, 1)] }) :=
  ⟨by decide, by decide, by decide,
   C5_delete_restore_roundtrip_amended storeRt 4
     { link_key := 4, url := "pic", categories := [(7, 2), (9, 1)] }
     (by decide) (by decide) (by decide) (by decide) (by decide)⟩

theorem foldl_append_if_filter (l : List (Int × Image)) (p : Int × Image → Bool)
    (acc : List Int) :
    l.foldl (fun acc q => if p q then acc ++ [q.1] else acc) acc
      = acc ++ (l.filter p).map Prod.fst := by
  induction l generalizing acc with
  | nil => simp
  | cons q l ih =>
    by_cases hq : p q
    · simp [List.foldl_cons, hq, ih]
    · simp [List.foldl_cons, hq, ih]

/-- Claim C6: for every image store with distinct live keys and every
non-empty list of category ids, `find_matches` returns exactly the live image
ids whose category map contains at least one of the given ids (OR semantics),
each exactly once. -/
theorem C6_find_matches_or_semantics (t : ImageDictionary) (cats : List Int)
    (hnd : NoDupKeys t.live) (hne : cats ≠ []) :
    (∀ k : Int, k ∈ t.find_matches cats ↔
      ∃ im, alookup t.live k = some im ∧ ∃ c ∈ cats, c ∈ akeys im.categories) ∧
    (t.find_matches cats).Nodup := by
  have hlen : cats.length > 0 := by
    cases cats
    · exact absurd rfl hne
    · simp
  have hfm : t.find_matches cats
      = (t.live.filter (fun pr => cats.any fun c => pr.2.has_category c)).map
          Prod.fst := by
    unfold ImageDictionary.find_matches
    rw [if_pos hlen]
    rw [foldl_append_if_filter t.live (fun pr => cats.any fun c => pr.2.has_category c) []]
    simp
  constructor
  · intro k
    rw [hfm]
    constructor
    · intro hk
      rcases List.mem_map.mp hk with ⟨pr, hpr, hfst⟩
      rcases List.mem_filter.mp hpr with ⟨hmem, hp⟩
      refine ⟨pr.2, ?_, ?_⟩
      · apply alookup_eq_some_of_mem t.live hnd
        have hpr2 : (k, pr.2) = pr := by
          rw [← hfst]
        rw [hpr2]
        exact hmem
      · rcases List.any_eq_true.mp hp with ⟨c, hc, hcat⟩
        refine ⟨c, hc, ?_⟩
        have := of_decide_eq_true hcat
        exact this
    · rintro ⟨im, hlk, c, hc, hcc⟩
      apply List.mem_map.mpr
      refine ⟨(k, im), ?_, rfl⟩
      apply List.mem_filter.mpr
      refine ⟨mem_of_alookup_eq_some t.live hlk, ?_⟩
      apply List.any_eq_true.mpr
      exact ⟨c, hc, decide_eq_true hcc⟩
  · rw [hfm]
    have hsub : ((t.live.filter
        (fun pr => cats.any fun c => pr.2.has_category c)).map Prod.fst).Sublist
        (t.live.map Prod.fst) :=
      (List.filter_sublist t.live).map Prod.fst
    exact hsub.nodup hnd

/-- Claim C6 (witness): `storeFind` with `cats = [3, 9]`: image 1 (which
carries category 3, even at count 0) matches, image 2 does not. -/
theorem C6_find_matches_or_semantics_witness :
    NoDupKeys storeFind.live ∧ ([3, 9] : List Int) ≠ [] ∧
    ((1 : Int) ∈ storeFind.find_matches [3, 9] ↔
      ∃ im, alookup storeFind.live 1 = some im ∧
        ∃ c ∈ ([3, 9] : List Int), c ∈ akeys im.categories) ∧
    ((2 : Int) ∈ storeFind.find_matches [3, 9] ↔
      ∃ im, alookup storeFind.live 2 = some im ∧
        ∃ c ∈ ([3, 9] : List Int), c ∈ akeys im.categories) ∧
    (storeFind.find_matches [3, 9]).Nodup :=
  ⟨by decide, by decide,
   (C6_find_matches_or_semantics storeFind [3, 9] (by decide) (by decide)).1 1,
   (C6_find_matches_or_semantics storeFind [3, 9] (by decide) (by decide)).1 2,
   (C6_find_matches_or_semantics storeFind [3, 9] (by decide) (by decide)).2⟩

theorem CatInv_insert (fwd : List (Int × String)) (rev : List (String × Int))
    (nidx : Int) (skey : String) (idxN : Int)
    (hndf : NoDupKeys fwd) (hndr : NoDupKeys rev)
    (hpos : ∀ i ∈ akeys fwd, 1 ≤ i)
    (hiff : ∀ (kw : String) (i : Int),
      alookup rev kw = some i ↔ alookup fwd i = some kw)
    (hA : alookup rev skey = none) (hposN : 1 ≤ idxN)
    (hfwdN : alookup fwd idxN = none) :
    CatInv { forward := aset fwd idxN skey,
             reverse_lookup := aset rev skey idxN, next_index := nidx } := by
  refine ⟨NoDupKeys_aset _ _ _ hndf, NoDupKeys_aset _ _ _ hndr, ?_, ?_⟩
  · intro i hi
    replace hi : i ∈ akeys (aset fwd idxN skey) := hi
    rcases (mem_akeys_aset fwd idxN i skey).mp hi with h1 | rfl
    · exact hpos i h1
    · exact hposN
  · intro kw i
    show alookup (aset rev skey idxN) kw = some i ↔
      alookup (aset fwd idxN skey) i = some kw
    by_cases hkw : kw = skey
    · subst hkw
      rw [alookup_aset_self]
      by_cases hi : i = idxN
      · subst hi
        rw [alookup_aset_self]
        simp
      · constructor
        · intro hsome
          exact absurd (Option.some.inj hsome).symm hi
        · intro hfwd
          rw [alookup_aset_ne fwd kw hi] at hfwd
          have hrev := (hiff kw i).mpr hfwd
          rw [hA] at hrev
          exact absurd hrev (by simp)
    · rw [alookup_aset_ne rev idxN hkw]
      by_cases hi : i = idxN
      · subst hi
        rw [alookup_aset_self]
        constructor
        · intro hrev
          have hfwd := (hiff kw i).mp hrev
          rw [hfwdN] at hfwd
          exact absurd hfwd (by simp)
        · intro hsome
          exact absurd (Option.some.inj hsome).symm hkw
      · rw [alookup_aset_ne fwd skey hi]
        exact hiff kw i

theorem alookup_fresh_add_index_none (s : CategoryDictionary) :
    alookup s.forward
      (if s.forward.length ≠ 0 then listMaxInt (akeys s.forward) + 1 else 1)
      = none := by
  by_cases h : s.forward.length ≠ 0
  · rw [if_pos h]
    apply alookup_none_of_not_mem_akeys
    intro hmem
    have := le_listMaxInt hmem
    omega
  · rw [if_neg h]
    have : s.forward = [] := by
      simpa using List.length_eq_zero.mp (by simpa using h)
    rw [this]
    rfl

theorem CatInv_add (s : CategoryDictionary) (cat : String)
    (hstable : StableKeyword cat) (hinv : CatInv s) :
    CatInv (s.add_category cat).2 := by
  obtain ⟨hndf, hndr, hpos, hiff⟩ := hinv
  have hstable' : unquote_plus (pyCasefold (unquote_plus (pyCasefold (pyStrip cat))))
      = unquote_plus (unquote_plus (pyCasefold (pyStrip cat))) := hstable
  rcases hA : alookup s.reverse_lookup
      (unquote_plus (unquote_plus (pyCasefold (pyStrip cat)))) with _ | i
  · have hadd : (s.add_category cat).2
        = { forward := aset s.forward
              (if s.forward.length ≠ 0 then listMaxInt (akeys s.forward) + 1 else 1)
              (unquote_plus (unquote_plus (pyCasefold (pyStrip cat)))),
            reverse_lookup := aset s.reverse_lookup
              (unquote_plus (unquote_plus (pyCasefold (pyStrip cat))))
              (if s.forward.length ≠ 0 then listMaxInt (akeys s.forward) + 1 else 1),
            next_index := s.next_index } := by
      simp only [CategoryDictionary.add_category, CategoryDictionary.get_index,
        hstable', hA]
      simp
    rw [hadd]
    exact CatInv_insert s.forward s.reverse_lookup s.next_index _ _
      hndf hndr hpos hiff hA (add_category_fresh_idx_pos s hpos)
      (alookup_fresh_add_index_none s)
  · by_cases hi : i = 0
    · exfalso
      subst hi
      have hfwd := (hiff _ 0).mp hA
      have hmem : (0 : Int) ∈ akeys s.forward :=
        (mem_akeys_iff_alookup s.forward 0).mpr (by simp [hfwd])
      have := hpos 0 hmem
      omega
    · have hadd : (s.add_category cat).2 = s := by
        simp only [CategoryDictionary.add_category, CategoryDictionary.get_index,
          hstable', hA]
        simp [hi]
      rw [hadd]
      exact ⟨hndf, hndr, hpos, hiff⟩

theorem CatInv_delete (s s' : CategoryDictionary) (key : Int)
    (hdel : s.delete_category key = some s') (hinv : CatInv s) : CatInv s' := by
  obtain ⟨hndf, hndr, hpos, hiff⟩ := hinv
  unfold CategoryDictionary.delete_category at hdel
  split at hdel
  · have hs : s = s' := Option.some.inj hdel
    rw [← hs]
    exact ⟨hndf, hndr, hpos, hiff⟩
  · rename_i kw hF
    split at hdel
    · exact absurd hdel (by simp)
    · rename_i j hR
      have hdel' := Option.some.inj hdel
      have hj : key = j := by
        have h1 := (hiff kw key).mpr hF
        rw [hR] at h1
        exact (Option.some.inj h1).symm
      subst hj
      rw [← hdel']
      refine ⟨NoDupKeys_aerase _ _ hndf, NoDupKeys_aerase _ _ hndr, ?_, ?_⟩
      · intro i hi
        replace hi : i ∈ akeys (aerase s.forward key) := hi
        exact hpos i ((akeys_aerase_sublist s.forward key).subset hi)
      · intro kw' i'
        show alookup (aerase s.reverse_lookup kw) kw' = some i' ↔
          alookup (aerase s.forward key) i' = some kw'
        by_cases hkw : kw' = kw
        · subst hkw
          rw [alookup_aerase_self s.reverse_lookup kw' hndr]
          constructor
          · intro hc
            exact absurd hc (by simp)
          · intro hfwd
            by_cases hi : i' = key
            · subst hi
              rw [alookup_aerase_self s.forward i' hndf] at hfwd
              exact absurd hfwd (by simp)
            · rw [alookup_aerase_ne s.forward hi] at hfwd
              have h1 := (hiff kw' i').mpr hfwd
              rw [hR] at h1
              exact absurd (Option.some.inj h1).symm hi
        · rw [alookup_aerase_ne s.reverse_lookup hkw]
          by_cases hi : i' = key
          · subst hi
            rw [alookup_aerase_self s.forward i' hndf]
            constructor
            · intro hrev
              have h1 := (hiff kw' i').mp hrev
              rw [hF] at h1
              exact absurd (Option.some.inj h1).symm hkw
            · intro hc
              exact absurd hc (by simp)
          · rw [alookup_aerase_ne s.forward hi]
            exact hiff kw' i'

theorem catReachable_CatInv {s : CategoryDictionary} (h : CatReachable s) :
    CatInv s := by
  induction h with
  | empty =>
    refine ⟨?_, ?_, ?_, ?_⟩
    · simp [CategoryDictionary.empty, NoDupKeys, akeys]
    · simp [CategoryDictionary.empty, NoDupKeys, akeys]
    · intro i hi
      simp [CategoryDictionary.empty, akeys] at hi
    · intro kw i
      simp [CategoryDictionary.empty, alookup]
  | add s cat hre hst ih => exact CatInv_add s cat hst ih
  | delete s s' key hre hdel ih => exact CatInv_delete s s' key hdel ih

/-- Claim C3 (amended): the reverse map is the exact inverse of the forward
map in every CategoryStore state reachable from a fresh store by
`add_category` on keywords whose normalized form is stable under the lookup
renormalization, and by `delete_category`.  (Bulk loading a file that repeats
a keyword or an id, or adding a keyword whose unquote gains letters that
casefold changes, can break the invariant — see the counterexample.) -/
theorem C3_reverse_exact_inverse_amended (s : CategoryDictionary)
    (h : CatReachable s) :
    ∀ (kw : String) (i : Int),
      alookup s.reverse_lookup kw = some i ↔ alookup s.forward i = some kw :=
  (catReachable_CatInv h).2.2.2

/-- Claim C3 (witness): the store reached by one `add_category "cat"` from
the fresh store; the invariant instance at keyword `cat` and id 1. -/
theorem C3_reverse_exact_inverse_amended_witness :
    CatReachable (CategoryDictionary.empty.add_category "cat").2 ∧
    (alookup (CategoryDictionary.empty.add_category "cat").2.reverse_lookup "cat"
        = some 1 ↔
     alookup (CategoryDictionary.empty.add_category "cat").2.forward 1
        = some "cat") :=
  ⟨CatReachable.add CategoryDictionary.empty "cat" CatReachable.empty (by decide),
   C3_reverse_exact_inverse_amended _
     (CatReachable.add CategoryDictionary.empty "cat" CatReachable.empty (by decide))
     "cat" 1⟩

theorem procDup_fold_inv (steps : List Int) (d : Int)
    (acc : List (Int × Int) × List (Int × String))
    (hnd : NoDupKeys acc.2) (hinv : ∀ p ∈ acc.1, alookup acc.2 p.1 = none) :
    NoDupKeys (steps.foldl (fun a i => (aset a.1 i d, aerase a.2 i)) acc).2 ∧
    ∀ p ∈ (steps.foldl (fun a i => (aset a.1 i d, aerase a.2 i)) acc).1,
      alookup (steps.foldl (fun a i => (aset a.1 i d, aerase a.2 i)) acc).2 p.1
        = none := by
  induction steps generalizing acc with
  | nil => exact ⟨hnd, hinv⟩
  | cons i steps ih =>
    rw [List.foldl_cons]
    apply ih
    · exact NoDupKeys_aerase _ _ hnd
    · intro p hp
      rcases mem_aset_cases acc.1 i d hp with h1 | h2
      · exact alookup_aerase_of_none _ _ (hinv p h1)
      · rw [h2]
        exact alookup_aerase_self _ _ hnd

theorem procDupGroup_inv (ids : List Int)
    (acc : List (Int × Int) × List (Int × String))
    (hnd : NoDupKeys acc.2) (hinv : ∀ p ∈ acc.1, alookup acc.2 p.1 = none) :
    NoDupKeys (procDupGroup acc ids).2 ∧
    ∀ p ∈ (procDupGroup acc ids).1, alookup (procDupGroup acc ids).2 p.1 = none := by
  unfold procDupGroup
  by_cases h : ids.length > 1
  · rw [if_pos h]
    split
    · exact ⟨hnd, hinv⟩
    · exact procDup_fold_inv _ _ acc hnd hinv
  · rw [if_neg h]
    exact ⟨hnd, hinv⟩

theorem findDup_fold_inv (keys : List String) (groups : List (String × List Int))
    (acc : List (Int × Int) × List (Int × String))
    (hnd : NoDupKeys acc.2) (hinv : ∀ p ∈ acc.1, alookup acc.2 p.1 = none) :
    NoDupKeys (keys.foldl
      (fun acc kw =>
        match alookup groups kw with
        | none => acc
        | some ids => procDupGroup acc ids) acc).2 ∧
    ∀ p ∈ (keys.foldl
      (fun acc kw =>
        match alookup groups kw with
        | none => acc
        | some ids => procDupGroup acc ids) acc).1,
      alookup (keys.foldl
        (fun acc kw =>
          match alookup groups kw with
          | none => acc
          | some ids => procDupGroup acc ids) acc).2 p.1 = none := by
  induction keys generalizing acc with
  | nil => exact ⟨hnd, hinv⟩
  | cons kw keys ih =>
    rw [List.foldl_cons]
    rcases hg : alookup groups kw with _ | ids
    · exact ih acc hnd hinv
    · have h1 := procDupGroup_inv ids acc hnd hinv
      exact ih _ h1.1 h1.2

theorem findDuplicates_repl_erased (s : CategoryDictionary)
    (hnds : NoDupKeys s.forward) :
    ∀ p ∈ s.find_duplicates.1,
      alookup s.find_duplicates.2.forward p.1 = none := by
  intro p hp
  have h := findDup_fold_inv
    (pySorted strLeBool (akeys (groupKwsAux s.forward [])))
    (groupKwsAux s.forward []) ([], s.forward) hnds (by intro q hq; simp at hq)
  exact h.2 p hp

theorem replCats_noop (repl : List (Int × Int)) (catids : List Int)
    (ids : List Int) (cats : Categories) (u : Bool)
    (h : ∀ i ∈ ids, i ∉ akeys repl ∧ ∃ v, alookup cats i = some v) :
    ids.foldl (replCatsStep repl catids) (cats, u) = (cats, u) := by
  induction ids with
  | nil => rfl
  | cons i ids ih =>
    have hi := h i (by simp)
    obtain ⟨v, hv⟩ := hi.2
    have hstep : replCatsStep repl catids (cats, u) i = (cats, u) := by
      unfold replCatsStep
      rw [if_neg hi.1]
      have hg : agetD cats i 0 = v := by simp [agetD, hv]
      rw [hg, aset_of_alookup_eq cats hv]
    rw [List.foldl_cons, hstep]
    exact ih (fun i' hi' => h i' (by simp [hi']))

theorem replOneImage_single (cats0 : Categories) (hnd : NoDupKeys cats0) :
    (3 ∉ akeys cats0 → replOneImage [(3, 7)] cats0 = (cats0, false)) ∧
    (3 ∈ akeys cats0 →
      replOneImage [(3, 7)] cats0
        = (aerase (aset cats0 7 (agetD cats0 7 0 + agetD cats0 3 0)) 3, true)) := by
  constructor
  · intro h3
    unfold replOneImage
    apply replCats_noop
    intro i hi
    constructor
    · intro hmem
      have hi3 : i = 3 := by simpa [akeys] using hmem
      exact h3 (hi3 ▸ hi)
    · have := (mem_akeys_iff_alookup cats0 i).mp hi
      exact Option.isSome_iff_exists.mp this
  · intro h3
    obtain ⟨A, B, hAB⟩ := List.append_of_mem h3
    have hnodup : (A ++ 3 :: B).Nodup := by
      have := hnd
      unfold NoDupKeys at this
      rw [hAB] at this
      exact this
    have h3AB : (3 : Int) ∉ A ++ B := by
      have := List.nodup_middle.mp hnodup
      exact (List.nodup_cons.mp this).1
    have h3A : (3 : Int) ∉ A := fun hc => h3AB (List.mem_append_left B hc)
    have h3B : (3 : Int) ∉ B := fun hc => h3AB (List.mem_append_right A hc)
    have hsubA : ∀ i ∈ A, i ∈ akeys cats0 := by
      intro i hi
      rw [hAB]
      exact List.mem_append_left _ hi
    have hsubB : ∀ i ∈ B, i ∈ akeys cats0 := by
      intro i hi
      rw [hAB]
      exact List.mem_append_right _ (List.mem_cons_of_mem 3 hi)
    unfold replOneImage
    rw [hAB, List.foldl_append, List.foldl_cons]
    rw [replCats_noop [(3, 7)] (A ++ 3 :: B) A cats0 false ?hA]
    case hA =>
      intro i hi
      refine ⟨?_, ?_⟩
      · intro hmem
        have hi3 : i = 3 := by simpa [akeys] using hmem
        exact h3A (hi3 ▸ hi)
      · exact Option.isSome_iff_exists.mp
          ((mem_akeys_iff_alookup cats0 i).mp (hsubA i hi))
    have hstep3 : replCatsStep [(3, 7)] (A ++ 3 :: B) (cats0, false) 3
        = (aerase (aset cats0 7 (agetD cats0 7 0 + agetD cats0 3 0)) 3, true) := by
      simp only [replCatsStep]
      rw [if_pos (by simp [akeys] : (3 : Int) ∈ akeys [((3 : Int), (7 : Int))])]
      have hcan : agetD [((3 : Int), (7 : Int))] 3 0 = 7 := by decide
      rw [hcan]
      by_cases h7 : (7 : Int) ∈ akeys cats0
      · have h7' : (7 : Int) ∈ A ++ 3 :: B := by rw [← hAB]; exact h7
        rw [if_pos h7']
      · have h7' : (7 : Int) ∉ A ++ 3 :: B := by rw [← hAB]; exact h7
        rw [if_neg h7']
        have hz : agetD cats0 7 0 = 0 := by
          simp [agetD, alookup_none_of_not_mem_akeys cats0 h7]
        rw [hz, zero_add]
    rw [hstep3]
    rw [replCats_noop [(3, 7)] (A ++ 3 :: B) B
      (aerase (aset cats0 7 (agetD cats0 7 0 + agetD cats0 3 0)) 3) true ?hB]
    case hB =>
      intro i hi
      have hi3 : i ≠ 3 := fun he => h3B (he ▸ hi)
      refine ⟨?_, ?_⟩
      · intro hmem
        exact hi3 (by simpa [akeys] using hmem)
      · by_cases hi7 : i = 7
        · subst hi7
          refine ⟨agetD cats0 7 0 + agetD cats0 3 0, ?_⟩
          rw [alookup_aerase_ne _ (by norm_num : (7 : Int) ≠ 3), alookup_aset_self]
        · obtain ⟨v, hv⟩ := Option.isSome_iff_exists.mp
            ((mem_akeys_iff_alookup cats0 i).mp (hsubB i hi))
          refine ⟨v, ?_⟩
          rw [alookup_aerase_ne _ hi3, alookup_aset_ne cats0 _ hi7]
          exact hv

theorem checkpoint_keeps_live (u : ImageDictionary) :
    (u.checkpoint).1.live = u.live := by
  unfold ImageDictionary.checkpoint
  rfl

theorem rdcStep_live_ne (repl : List (Int × Int)) (acc : ImageDictionary × Bool)
    (j k : Int) (hkj : k ≠ j) :
    alookup ((rdcStep repl acc j).1).live k = alookup acc.1.live k := by
  unfold rdcStep
  split
  · rfl
  · rename_i im him
    by_cases hrc : (replOneImage repl im.categories).2 = true
    · simp [hrc, checkpoint_keeps_live, alookup_aset_ne _ _ hkj]
    · by_cases hb : acc.2 = true
      · simp [hrc, hb, checkpoint_keeps_live]
      · simp [hrc, hb]

theorem rdcStep_live_self (repl : List (Int × Int)) (acc : ImageDictionary × Bool)
    (k : Int) (im : Image) (him : alookup acc.1.live k = some im) :
    alookup ((rdcStep repl acc k).1).live k
      = some (if (replOneImage repl im.categories).2
              then { link_key := im.link_key, url := im.url,
                     categories := (replOneImage repl im.categories).1 }
              else im) := by
  unfold rdcStep
  split
  · rename_i hnone
    rw [him] at hnone
    cases hnone
  · rename_i im' him'
    rw [him] at him'
    have him2 : im = im' := Option.some.inj him'
    subst him2
    by_cases hrc : (replOneImage repl im.categories).2 = true
    · simp [hrc, checkpoint_keeps_live, alookup_aset_self]
    · by_cases hb : acc.2 = true
      · simp [hrc, hb, checkpoint_keeps_live, him]
      · simp [hrc, hb, him]

theorem rdc_foldl_untouched (repl : List (Int × Int)) (keys : List Int)
    (acc : ImageDictionary × Bool) (k : Int) (hk : k ∉ keys) :
    alookup ((keys.foldl (rdcStep repl) acc).1).live k = alookup acc.1.live k := by
  induction keys generalizing acc with
  | nil => rfl
  | cons j keys ih =>
    have hkj : k ≠ j := fun he => hk (he ▸ List.mem_cons_self j keys)
    rw [List.foldl_cons,
      ih (rdcStep repl acc j) (fun hm => hk (List.mem_cons_of_mem j hm))]
    exact rdcStep_live_ne repl acc j k hkj

theorem rdc_final_lookup (repl : List (Int × Int)) (t : ImageDictionary)
    (k : Int) (im : Image) (hnd : NoDupKeys t.live)
    (him : alookup t.live k = some im) :
    alookup (t.remove_duplicate_categories repl).2.live k
      = some (if (replOneImage repl im.categories).2
              then { link_key := im.link_key, url := im.url,
                     categories := (replOneImage repl im.categories).1 }
              else im) := by
  have hk : k ∈ akeys t.live :=
    (mem_akeys_iff_alookup _ _).mpr (by simp [him])
  obtain ⟨A, B, hAB⟩ := List.append_of_mem hk
  have hnodup : (A ++ k :: B).Nodup := by
    have h0 := hnd
    unfold NoDupKeys at h0
    rw [hAB] at h0
    exact h0
  have hkAB : k ∉ A ++ B := (List.nodup_cons.mp (List.nodup_middle.mp hnodup)).1
  have hkA : k ∉ A := fun hc => hkAB (List.mem_append_left B hc)
  have hkB : k ∉ B := fun hc => hkAB (List.mem_append_right A hc)
  show alookup (((akeys t.live).foldl (rdcStep repl) (t, false)).1).live k = _
  rw [hAB, List.foldl_append, List.foldl_cons]
  rw [rdc_foldl_untouched repl B _ k hkB]
  rw [rdcStep_live_self repl (A.foldl (rdcStep repl) (t, false)) k im ?him2]
  case him2 =>
    rw [rdc_foldl_untouched repl A (t, false) k hkA]
    exact him

/-- Claim C7: if `find_duplicates()` merges a keyword held by ids `{3, 7}`
into canonical id 7 (returning the replacement map `{3: 7}`) and
`remove_duplicate_categories({3: 7})` is then run, category id 3 no longer
exists in the category store, and every live image that previously voted for
category 3 now carries that count added onto category 7's count (created with
that count when 7 was absent), with category 3 removed from the image and all
other categories untouched. -/
theorem C7_find_duplicates_then_merge (s : CategoryDictionary)
    (t : ImageDictionary)
    (hnds : NoDupKeys s.forward)
    (hrepl : s.find_duplicates.1 = [(3, 7)])
    (hndl : NoDupKeys t.live)
    (hndc : ∀ p ∈ t.live, NoDupKeys p.2.categories) :
    alookup s.find_duplicates.2.forward 3 = none ∧
    ∀ (k : Int) (im : Image), alookup t.live k = some im →
      ∃ im', alookup (t.remove_duplicate_categories [(3, 7)]).2.live k = some im' ∧
        im'.url = im.url ∧
        alookup im'.categories 3 = none ∧
        (3 ∈ akeys im.categories →
          alookup im'.categories 7
            = some (agetD im.categories 7 0 + agetD im.categories 3 0)) ∧
        (3 ∉ akeys im.categories → im'.categories = im.categories) ∧
        (∀ c : Int, c ≠ 3 → c ≠ 7 →
          alookup im'.categories c = alookup im.categories c) := by
  constructor
  · exact findDuplicates_repl_erased s hnds (3, 7)
      (by rw [hrepl]; exact List.mem_singleton_self _)
  · intro k im him
    have hndci : NoDupKeys im.categories :=
      hndc (k, im) (mem_of_alookup_eq_some t.live him)
    have hlook := rdc_final_lookup [(3, 7)] t k im hndl him
    by_cases h3 : (3 : Int) ∈ akeys im.categories
    · have hro := (replOneImage_single im.categories hndci).2 h3
      rw [hro] at hlook
      simp only [if_true] at hlook
      refine ⟨_, hlook, rfl, ?_, ?_, ?_, ?_⟩
      · exact alookup_aerase_self _ _
          (NoDupKeys_aset im.categories 7 _ hndci)
      · intro _
        rw [alookup_aerase_ne _ (by norm_num : (7 : Int) ≠ 3),
          alookup_aset_self]
      · intro hc
        exact absurd h3 hc
      · intro c hc3 hc7
        rw [alookup_aerase_ne _ hc3, alookup_aset_ne im.categories _ hc7]
    · have hro := (replOneImage_single im.categories hndci).1 h3
      rw [hro] at hlook
      simp only [if_false] at hlook
      refine ⟨im, hlook, rfl, ?_, ?_, ?_, ?_⟩
      · exact alookup_none_of_not_mem_akeys im.categories h3
      · intro hc
        exact absurd hc h3
      · intro _
        rfl
      · intro c _ _
        rfl

/-- Claim C7 (witness): `cdMerge` (keyword `cat` under ids 3 and 7) and
`storeMerge`; image 1 (votes `{3: 2, 5: 1}`) ends with `{5: 1, 7: 2}` and
image 2 (votes `{7: 4, 3: 1}`) ends with `{7: 5}`. -/
theorem C7_find_duplicates_then_merge_witness :
    NoDupKeys cdMerge.forward ∧
    cdMerge.find_duplicates.1 = [(3, 7)] ∧
    NoDupKeys storeMerge.live ∧
    (∀ p ∈ storeMerge.live, NoDupKeys p.2.categories) ∧
    alookup cdMerge.find_duplicates.2.forward 3 = none ∧
    (∃ im', alookup (storeMerge.remove_duplicate_categories [(3, 7)]).2.live 1
        = some im' ∧
      im'.url = imgMerge1.url ∧
      alookup im'.categories 3 = none ∧
      (3 ∈ akeys imgMerge1.categories →
        alookup im'.categories 7
          = some (agetD imgMerge1.categories 7 0 + agetD imgMerge1.categories 3 0)) ∧
      (3 ∉ akeys imgMerge1.categories → im'.categories = imgMerge1.categories) ∧
      (∀ c : Int, c ≠ 3 → c ≠ 7 →
        alookup im'.categories c = alookup imgMerge1.categories c)) :=
  ⟨by decide, by decide, by decide, by decide,
   (C7_find_duplicates_then_merge cdMerge storeMerge
     (by decide) (by decide) (by decide) (by decide)).1,
   (C7_find_duplicates_then_merge cdMerge storeMerge
     (by decide) (by decide) (by decide) (by decide)).2 1 imgMerge1 (by decide)⟩
